import Mathlib

/-!
Shallow embedding of the Voltcraft energy-logger decoder and statistics
engine (`src/lib.rs`) and verification of its specification.

Modelling conventions:
* Rust `u8` bytes are `Nat` values; a buffer (`Vec<u8>`) is a `List Nat`.
* Rust `f64` arithmetic is modelled exactly over `ℚ` (all operations in the
  source are sums, products and divisions by constants).
* `chrono::DateTime<Local>` is modelled as minutes since 2000-01-01 00:00
  local time, with `Local` abstracted as a fixed offset (no DST); this is an
  `Int`.  `chrono::Duration` differences are `Int` minutes.  `Date<Local>`
  is the day number, recovered by floor division by 1440.
* A Rust panic (out-of-bounds slice index, `Option::unwrap` on `None`,
  `chrono`'s `ymd`/`and_hms` on an invalid calendar date-time) is modelled
  as `Option.none` for helper functions and as `RResult.panicked` for
  `parse`.
-/

namespace Voltcraft

/-- Outcome of a Rust computation that can panic or return `Result`. -/
inductive RResult (α : Type) where
  | panicked : RResult α
  | error : String → RResult α
  | ok : α → RResult α
deriving DecidableEq, Repr

/-- `const MAGIC_NUMBER: [u8; 3] = [0xE0, 0xC5, 0xEA];` -/
def MAGIC_NUMBER : List Nat := [0xE0, 0xC5, 0xEA]

/-- `const END_OF_DATA: [u8; 4] = [0xFF, 0xFF, 0xFF, 0xFF];` -/
def END_OF_DATA : List Nat := [0xFF, 0xFF, 0xFF, 0xFF]

/-- Gregorian leap-year rule, as used by `chrono` for date validation. -/
def isLeap (y : Nat) : Bool := y % 4 == 0 && (y % 100 != 0 || y % 400 == 0)

/-- Number of days in month `m` of year `y` (Gregorian). -/
def daysInMonth (y m : Nat) : Nat :=
  if m == 2 then (if isLeap y then 29 else 28)
  else if m == 4 || m == 6 || m == 9 || m == 11 then 30
  else 31

/-- Validity of a calendar date-time, the condition under which `chrono`'s
`ymd(..).and_hms(..)` succeeds (DST gaps abstracted away). -/
def isValidDateTime (y m d h mi : Nat) : Bool :=
  1 ≤ m && m ≤ 12 && 1 ≤ d && d ≤ daysInMonth y m && h ≤ 23 && mi ≤ 59

/-- Day number of `y-m-d` counted from 2000-01-01 (day 0); meaningful for
`y ≥ 2000` and a valid date. -/
def dayNumber (y m d : Nat) : Nat :=
  365 * (y - 2000) + (List.range (y - 2000)).countP (fun i => isLeap (2000 + i))
    + ((List.range (m - 1)).map (fun i => daysInMonth y (i + 1))).sum + (d - 1)

/-- Minutes since 2000-01-01 00:00 of the local date-time `y-m-d h:mi`. -/
def toMinutes (y m d h mi : Nat) : Int :=
  1440 * (dayNumber y m d : Int) + 60 * (h : Int) + (mi : Int)

/-- The calendar-date component of a timestamp (`DateTime::date()`), as a
day number: floor division of the minute count by 1440. -/
def dateOf (t : Int) : Int := Int.fdiv t 1440

/-- `struct PowerEvent` from the source: one decoded reading. -/
structure PowerEvent where
  timestamp : Int
  voltage : ℚ
  current : ℚ
  power_factor : ℚ
  power : ℚ
  apparent_power : ℚ
deriving DecidableEq, Repr, Inhabited

/-- `fn is_valid(&self) -> bool`: compares the slice `raw_data[0..3]` with
`MAGIC_NUMBER`.  The slice indexing panics (`none`) when the buffer is
shorter than 3 bytes. -/
def is_valid (raw : List Nat) : Option Bool :=
  if 3 ≤ raw.length then some (decide (raw.take 3 = MAGIC_NUMBER)) else none

/-- `fn is_endofdata(&self, off) -> bool`: compares `raw_data[off..off+4]`
with `END_OF_DATA`; the slice indexing panics (`none`) when fewer than 4
bytes remain. -/
def is_endofdata (raw : List Nat) (off : Nat) : Option Bool :=
  if off + 4 ≤ raw.length then some (decide ((raw.drop off).take 4 = END_OF_DATA))
  else none

/-- `fn decode_timestamp(&self, off)`: reads month, day, year-2000, hour,
minute at `off..off+5` and builds `Local.ymd(year+2000, month, day)
.and_hms(hour, minute, 0)`.  Panics (`none`) on an out-of-bounds index or
when `chrono` rejects the date-time. -/
def decode_timestamp (raw : List Nat) (off : Nat) : Option Int :=
  if off + 5 ≤ raw.length then
    let month := raw.getD off 0
    let day := raw.getD (off + 1) 0
    let year := raw.getD (off + 2) 0
    let hour := raw.getD (off + 3) 0
    let minute := raw.getD (off + 4) 0
    if isValidDateTime (year + 2000) month day hour minute then
      some (toMinutes (year + 2000) month day hour minute)
    else none
  else none

/-- `fn decode_power(&self, off)`: voltage from a big-endian `u16` at
`off..off+2` divided by 10, current from a big-endian `u16` at
`off+2..off+4` divided by 1000, power factor from the byte at `off+4`
divided by 100; power and apparent power derived.  Panics (`none`) on an
out-of-bounds index. -/
def decode_power (raw : List Nat) (off : Nat) : Option (ℚ × ℚ × ℚ × ℚ × ℚ) :=
  if off + 5 ≤ raw.length then
    let voltage : ℚ := ((256 * raw.getD off 0 + raw.getD (off + 1) 0 : ℕ) : ℚ) / 10
    let current : ℚ := ((256 * raw.getD (off + 2) 0 + raw.getD (off + 3) 0 : ℕ) : ℚ) / 1000
    let power_factor : ℚ := ((raw.getD (off + 4) 0 : ℕ) : ℚ) / 100
    some (voltage, current, power_factor,
      voltage * current * power_factor / 1000, voltage * current / 1000)
  else none

/-- The error message of `parse` on a magic-marker mismatch
(`InvalidFormat`). -/
def invalidMsg : String := "Invalid data (not a Voltcraft file)"

/-- The `loop` body of `fn parse`: decode 5-byte power records until the
end-of-data sentinel.  `fuel` is a structural bound on the number of
iterations; the source loop always either finds the sentinel or panics on
an out-of-bounds slice within `raw.length` iterations, so fuel exhaustion
is unreachable when `parse` supplies `raw.length + 1`. -/
def parseLoop (raw : List Nat) (start_time : Int) :
    Nat → Nat → Nat → List PowerEvent → RResult (List PowerEvent)
  | 0, _, _, _ => .panicked
  | fuel + 1, offset, minute_increment, acc =>
    match is_endofdata raw offset with
    | none => .panicked
    | some true => .ok acc
    | some false =>
      match decode_power raw offset with
      | none => .panicked
      | some (v, c, pf, p, ap) =>
        parseLoop raw start_time fuel (offset + 5) (minute_increment + 1)
          (acc ++ [{ timestamp := start_time + (minute_increment : Int),
                     voltage := v, current := c, power_factor := pf,
                     power := p, apparent_power := ap }])

/-- `fn parse(&self) -> Result<Vec<PowerEvent>, &'static str>`: validate the
magic marker, decode the base timestamp at offset 3, then decode power
records from offset 8 until the sentinel. -/
def parse (raw : List Nat) : RResult (List PowerEvent) :=
  match is_valid raw with
  | none => .panicked
  | some false => .error invalidMsg
  | some true =>
    match decode_timestamp raw 3 with
    | none => .panicked
    | some start_time => parseLoop raw start_time (raw.length + 1) 8 0 []

/-- The test buffer `TESTDATA` from the source. -/
def TESTDATA : List Nat :=
  [0xE0, 0xC5, 0xEA,
   0x09, 0x0B, 0x0E, 0x12, 0x2B, 0x08, 0xC6, 0x01, 0xBE, 0x57,
   0xFF, 0xFF, 0xFF, 0xFF]

example : is_valid TESTDATA = some true := by decide

example : decode_timestamp TESTDATA 3 = some (toMinutes 2014 9 11 18 43) := by decide

example :
    decode_power TESTDATA 8 =
      some (((256 * TESTDATA.getD 8 0 + TESTDATA.getD 9 0 : ℕ) : ℚ) / 10,
        ((256 * TESTDATA.getD 10 0 + TESTDATA.getD 11 0 : ℕ) : ℚ) / 1000,
        ((TESTDATA.getD 12 0 : ℕ) : ℚ) / 100,
        ((256 * TESTDATA.getD 8 0 + TESTDATA.getD 9 0 : ℕ) : ℚ) / 10 *
            (((256 * TESTDATA.getD 10 0 + TESTDATA.getD 11 0 : ℕ) : ℚ) / 1000) *
            (((TESTDATA.getD 12 0 : ℕ) : ℚ) / 100) / 1000,
        ((256 * TESTDATA.getD 8 0 + TESTDATA.getD 9 0 : ℕ) : ℚ) / 10 *
            (((256 * TESTDATA.getD 10 0 + TESTDATA.getD 11 0 : ℕ) : ℚ) / 1000) / 1000) :=
  rfl

/-- `struct PowerStats` from the source. -/
structure PowerStats where
  total_active_power : ℚ
  avg_active_power : ℚ
  max_active_power : PowerEvent
  total_apparent_power : ℚ
  avg_apparent_power : ℚ
  max_apparent_power : PowerEvent
  min_voltage : PowerEvent
  max_voltage : PowerEvent
  avg_voltage : ℚ
deriving DecidableEq, Repr

/-- `struct PowerBlackout` from the source: start timestamp and duration in
minutes. -/
structure PowerBlackout where
  timestamp : Int
  duration : Int
deriving DecidableEq, Repr

/-- Rust `Iterator::max_by` with key `f`: returns the LAST maximal element;
`none` on an empty iterator. -/
def max_by (f : PowerEvent → ℚ) : List PowerEvent → Option PowerEvent
  | [] => none
  | x :: xs => some (xs.foldl (fun acc y => if f acc ≤ f y then y else acc) x)

/-- Rust `Iterator::min_by` with key `f`: returns the FIRST minimal element;
`none` on an empty iterator. -/
def min_by (f : PowerEvent → ℚ) : List PowerEvent → Option PowerEvent
  | [] => none
  | x :: xs => some (xs.foldl (fun acc y => if f y < f acc then y else acc) x)

/-- `fn compute_stats(power_items: &Vec<PowerEvent>) -> PowerStats`.
The `unwrap()` on the `max_by`/`min_by` results panics (`none`) exactly
when the list is empty; the f64 divisions by a zero length would produce
NaN but are never returned in that case, since the panic occurs first. -/
def compute_stats (power_items : List PowerEvent) : Option PowerStats :=
  let power_sum := power_items.foldl (fun sum x => sum + x.power) 0
  let total_active_power := power_sum / 60
  let avg_active_power := power_sum / (power_items.length : ℚ)
  let apparent_power_sum := power_items.foldl (fun sum x => sum + x.apparent_power) 0
  let total_apparent_power := apparent_power_sum / 60
  let avg_apparent_power := apparent_power_sum / (power_items.length : ℚ)
  let avg_voltage := power_items.foldl (fun sum x => sum + x.voltage) 0
    / (power_items.length : ℚ)
  match max_by (fun e => e.power) power_items,
      max_by (fun e => e.apparent_power) power_items,
      min_by (fun e => e.voltage) power_items,
      max_by (fun e => e.voltage) power_items with
  | some maxp, some maxap, some minv, some maxv =>
    some { total_active_power, avg_active_power, max_active_power := maxp,
           total_apparent_power, avg_apparent_power, max_apparent_power := maxap,
           min_voltage := minv, max_voltage := maxv, avg_voltage }
  | _, _, _, _ => none

/-- `fn overall_stats(&self) -> PowerStats`. -/
def overall_stats (power_data : List PowerEvent) : Option PowerStats :=
  compute_stats power_data

/-- `fn distinct_days(&self)`: collect each reading's calendar date into a
hash set, then sort ascending.  The hash set is modelled by `dedup` (the
subsequent sort erases the set's unspecified iteration order). -/
def distinct_days (power_data : List PowerEvent) : List Int :=
  List.insertionSort (· ≤ ·)
    ((power_data.map (fun d => dateOf d.timestamp)).dedup)

/-- `fn filter_power_data(&self, day)`: readings whose date equals `day`,
in input order. -/
def filter_power_data (power_data : List PowerEvent) (day : Int) : List PowerEvent :=
  power_data.filter (fun d => day == dateOf d.timestamp)

/-- `fn daily_stats(&self) -> Vec<PowerInterval>`: one (date, stats) pair
per distinct day, ascending. -/
def daily_stats (power_data : List PowerEvent) : List (Int × Option PowerStats) :=
  (distinct_days power_data).map
    (fun d => (d, compute_stats (filter_power_data power_data d)))

/-- Rust `slice::chunks_exact(2)`: consecutive non-overlapping pairs from
the front, the unpaired remainder dropped. -/
def chunksExact2 : List PowerEvent → List (PowerEvent × PowerEvent)
  | a :: b :: rest => (a, b) :: chunksExact2 rest
  | _ => []

/-- `fn compute_blackouts(power_items: &Vec<PowerEvent>) -> Vec<PowerBlackout>`:
among the `chunks_exact(2)` pairs keep those whose timestamp gap exceeds one
minute, and emit start = first timestamp + 1 minute, duration = the gap. -/
def compute_blackouts (power_items : List PowerEvent) : List PowerBlackout :=
  ((chunksExact2 power_items).filter
      (fun p => decide (1 < p.2.timestamp - p.1.timestamp))).map
    (fun p => { timestamp := p.1.timestamp + 1,
                duration := p.2.timestamp - p.1.timestamp })

/-- `fn blackout_stats(&self) -> Vec<PowerBlackout>`. -/
def blackout_stats (power_data : List PowerEvent) : List PowerBlackout :=
  compute_blackouts power_data

/-- The pairing described by the specification's words, for refinement
claim C3: index pairs (r[0],r[1]), (r[2],r[3]), ..., a final unpaired
element discarded when the length is odd. -/
def blackoutPairsSpec (l : List PowerEvent) : List (PowerEvent × PowerEvent) :=
  (List.range (l.length / 2)).map
    (fun i => (l.getD (2 * i) default, l.getD (2 * i + 1) default))

/-- Blackout detection as the specification words it, for refinement claim
C3: one `PowerBlackout` per index pair whose second timestamp exceeds the
first by more than one minute. -/
def blackoutsSpec (l : List PowerEvent) : List PowerBlackout :=
  (blackoutPairsSpec l).filterMap
    (fun p => if 1 < p.2.timestamp - p.1.timestamp then
        some { timestamp := p.1.timestamp + 1,
               duration := p.2.timestamp - p.1.timestamp }
      else none)

/-! ### Helper lemmas about the decoder -/

lemma decode_power_eq_some {raw : List Nat} {off : Nat} {v c pf p ap : ℚ}
    (h : decode_power raw off = some (v, c, pf, p, ap)) :
    v = ((256 * raw.getD off 0 + raw.getD (off + 1) 0 : ℕ) : ℚ) / 10 ∧
    c = ((256 * raw.getD (off + 2) 0 + raw.getD (off + 3) 0 : ℕ) : ℚ) / 1000 ∧
    pf = ((raw.getD (off + 4) 0 : ℕ) : ℚ) / 100 ∧
    p = v * c * pf / 1000 ∧ ap = v * c / 1000 := by
  unfold decode_power at h
  split at h
  · simp only [Option.some.injEq, Prod.mk.injEq] at h
    obtain ⟨hv, hc, hpf, hp, hap⟩ := h
    subst hv hc hpf hp hap
    exact ⟨rfl, rfl, rfl, rfl, rfl⟩
  · exact absurd h (by simp)

/-- Any property `P` that holds of every event built from a successful
`decode_power` at the running minute increment propagates through the
parse loop to every emitted event. -/
lemma parseLoop_ok_forall (raw : List Nat) (t0 : Int) {P : PowerEvent → Prop}
    (hP : ∀ off inc v c pf p ap, decode_power raw off = some (v, c, pf, p, ap) →
      P { timestamp := t0 + (inc : Int), voltage := v, current := c,
          power_factor := pf, power := p, apparent_power := ap }) :
    ∀ fuel off inc acc evs,
      parseLoop raw t0 fuel off inc acc = .ok evs →
      (∀ e ∈ acc, P e) → ∀ e ∈ evs, P e := by
  intro fuel
  induction fuel with
  | zero => intro off inc acc evs h; simp [parseLoop] at h
  | succ n ih =>
    intro off inc acc evs h hacc
    cases heo : is_endofdata raw off with
    | none => simp [parseLoop, heo] at h
    | some b =>
      cases b with
      | true =>
        simp only [parseLoop, heo] at h
        injection h with h
        exact h ▸ hacc
      | false =>
        cases hdp : decode_power raw off with
        | none => simp [parseLoop, heo, hdp] at h
        | some tup =>
          obtain ⟨v, c, pf, p, ap⟩ := tup
          simp only [parseLoop, heo, hdp] at h
          refine ih (off + 5) (inc + 1) _ evs h ?_
          intro e he
          rcases List.mem_append.mp he with he | he
          · exact hacc e he
          · rcases List.mem_singleton.mp he with rfl
            exact hP off inc v c pf p ap hdp

/-- The parse loop extends the timestamp pattern `t0, t0+1, t0+2, ...`. -/
lemma parseLoop_ok_timestamps (raw : List Nat) (t0 : Int) :
    ∀ fuel off inc acc evs,
      parseLoop raw t0 fuel off inc acc = .ok evs →
      acc.map (fun e => e.timestamp) = (List.range inc).map (fun i : Nat => t0 + (i : Int)) →
      evs.map (fun e => e.timestamp) =
        (List.range evs.length).map (fun i : Nat => t0 + (i : Int)) := by
  intro fuel
  induction fuel with
  | zero => intro off inc acc evs h; simp [parseLoop] at h
  | succ n ih =>
    intro off inc acc evs h hmap
    cases heo : is_endofdata raw off with
    | none => simp [parseLoop, heo] at h
    | some b =>
      cases b with
      | true =>
        simp only [parseLoop, heo] at h
        injection h with h
        subst h
        have hlen : acc.length = inc := by
          have h1 := congrArg List.length hmap
          rw [List.length_map, List.length_map, List.length_range] at h1
          exact h1
        rw [hlen]
        exact hmap
      | false =>
        cases hdp : decode_power raw off with
        | none => simp [parseLoop, heo, hdp] at h
        | some tup =>
          obtain ⟨v, c, pf, p, ap⟩ := tup
          simp only [parseLoop, heo, hdp] at h
          refine ih (off + 5) (inc + 1) _ evs h ?_
          simp [hmap, List.range_succ]

/-- A successful `parse` run decodes the base timestamp at offset 3 and
emits events whose timestamps are `t0, t0+1, t0+2, ...` in order. -/
lemma parse_ok_spec (raw : List Nat) (evs : List PowerEvent)
    (h : parse raw = .ok evs) :
    ∃ t0, decode_timestamp raw 3 = some t0 ∧
      evs.map (fun e => e.timestamp) =
        (List.range evs.length).map (fun i : Nat => t0 + (i : Int)) := by
  cases hv : is_valid raw with
  | none => simp [parse, hv] at h
  | some b =>
    cases b with
    | false => simp [parse, hv] at h
    | true =>
      cases ht : decode_timestamp raw 3 with
      | none => simp [parse, hv, ht] at h
      | some t0 =>
        simp only [parse, hv, ht] at h
        exact ⟨t0, rfl, parseLoop_ok_timestamps raw t0 (raw.length + 1) 8 0 [] evs h
          (by simp)⟩

/-- Every event emitted by a successful `parse` satisfies any property that
holds of all `decode_power`-built events. -/
lemma parse_ok_forall (raw : List Nat) (evs : List PowerEvent) {P : PowerEvent → Prop}
    (hP : ∀ t0 off inc v c pf p ap, decode_power raw off = some (v, c, pf, p, ap) →
      P { timestamp := t0 + (inc : Int), voltage := v, current := c,
          power_factor := pf, power := p, apparent_power := ap })
    (h : parse raw = .ok evs) : ∀ e ∈ evs, P e := by
  cases hv : is_valid raw with
  | none => simp [parse, hv] at h
  | some b =>
    cases b with
    | false => simp [parse, hv] at h
    | true =>
      cases ht : decode_timestamp raw 3 with
      | none => simp [parse, hv, ht] at h
      | some t0 =>
        simp only [parse, hv, ht] at h
        exact parseLoop_ok_forall raw t0 (hP t0) (raw.length + 1) 8 0 [] evs h
          (by simp)

/-- The parse loop never returns the `Err` constructor: its only outcomes
are a panic or a decoded list. -/
lemma parseLoop_ne_error (raw : List Nat) (t0 : Int) :
    ∀ fuel off inc acc s, parseLoop raw t0 fuel off inc acc ≠ .error s := by
  intro fuel
  induction fuel with
  | zero => intro off inc acc s h; simp [parseLoop] at h
  | succ n ih =>
    intro off inc acc s h
    cases heo : is_endofdata raw off with
    | none => simp [parseLoop, heo] at h
    | some b =>
      cases b with
      | true => simp [parseLoop, heo] at h
      | false =>
        cases hdp : decode_power raw off with
        | none => simp [parseLoop, heo, hdp] at h
        | some tup =>
          obtain ⟨v, c, pf, p, ap⟩ := tup
          simp only [parseLoop, heo, hdp] at h
          exact ih (off + 5) (inc + 1) _ s h

/-! ### Claim theorems (decoder) -/

/-- C1: for every buffer and every power record decoded at offset `o`, the
decoded voltage is the big-endian 16-bit value at bytes `[o, o+1]` divided
by 10, the current is the big-endian 16-bit value at `[o+2, o+3]` divided
by 1000, the power factor is byte `o+4` divided by 100, and
`power = voltage * current * power_factor / 1000`,
`apparent_power = voltage * current / 1000`; moreover every reading
emitted by `parse` satisfies those two derived-field identities. -/
theorem decode_power_field_formulas (raw : List Nat) :
    (∀ o v c pf p ap, decode_power raw o = some (v, c, pf, p, ap) →
      v = ((256 * raw.getD o 0 + raw.getD (o + 1) 0 : ℕ) : ℚ) / 10 ∧
      c = ((256 * raw.getD (o + 2) 0 + raw.getD (o + 3) 0 : ℕ) : ℚ) / 1000 ∧
      pf = ((raw.getD (o + 4) 0 : ℕ) : ℚ) / 100 ∧
      p = v * c * pf / 1000 ∧ ap = v * c / 1000)
    ∧ (∀ evs, parse raw = .ok evs → ∀ e ∈ evs,
        e.power = e.voltage * e.current * e.power_factor / 1000 ∧
        e.apparent_power = e.voltage * e.current / 1000) := by
  constructor
  · intro o v c pf p ap h
    exact decode_power_eq_some h
  · intro evs h
    refine parse_ok_forall raw evs ?_ h
    intro t0 off inc v c pf p ap hdp
    obtain ⟨_, _, _, hp, hap⟩ := decode_power_eq_some hdp
    exact ⟨hp, hap⟩

/-- Witness for C1: instantiation at the source's `TESTDATA` buffer,
offset 8, whose record decodes successfully. -/
theorem decode_power_field_formulas_inst :
    ((256 * TESTDATA.getD 8 0 + TESTDATA.getD 9 0 : ℕ) : ℚ) / 10 =
        ((256 * TESTDATA.getD 8 0 + TESTDATA.getD (8 + 1) 0 : ℕ) : ℚ) / 10 ∧
    ((256 * TESTDATA.getD 10 0 + TESTDATA.getD 11 0 : ℕ) : ℚ) / 1000 =
        ((256 * TESTDATA.getD (8 + 2) 0 + TESTDATA.getD (8 + 3) 0 : ℕ) : ℚ) / 1000 ∧
    ((TESTDATA.getD 12 0 : ℕ) : ℚ) / 100 =
        ((TESTDATA.getD (8 + 4) 0 : ℕ) : ℚ) / 100 ∧
    ((256 * TESTDATA.getD 8 0 + TESTDATA.getD 9 0 : ℕ) : ℚ) / 10 *
        (((256 * TESTDATA.getD 10 0 + TESTDATA.getD 11 0 : ℕ) : ℚ) / 1000) *
        (((TESTDATA.getD 12 0 : ℕ) : ℚ) / 100) / 1000 =
      ((256 * TESTDATA.getD 8 0 + TESTDATA.getD 9 0 : ℕ) : ℚ) / 10 *
        (((256 * TESTDATA.getD 10 0 + TESTDATA.getD 11 0 : ℕ) : ℚ) / 1000) *
        (((TESTDATA.getD 12 0 : ℕ) : ℚ) / 100) / 1000 ∧
    ((256 * TESTDATA.getD 8 0 + TESTDATA.getD 9 0 : ℕ) : ℚ) / 10 *
        (((256 * TESTDATA.getD 10 0 + TESTDATA.getD 11 0 : ℕ) : ℚ) / 1000) / 1000 =
      ((256 * TESTDATA.getD 8 0 + TESTDATA.getD 9 0 : ℕ) : ℚ) / 10 *
        (((256 * TESTDATA.getD 10 0 + TESTDATA.getD 11 0 : ℕ) : ℚ) / 1000) / 1000 :=
  (decode_power_field_formulas TESTDATA).1 8 _ _ _ _ _ rfl

/-- From the map-level timestamp pattern, read off the i-th timestamp. -/
lemma map_timestamp_get {evs : List PowerEvent} {t0 : Int}
    (hmap : evs.map (fun e => e.timestamp) =
      (List.range evs.length).map (fun i : Nat => t0 + (i : Int)))
    (i : Nat) (hi : i < evs.length) :
    (evs.get ⟨i, hi⟩).timestamp = t0 + (i : Int) := by
  have h2 := congrArg (fun l => l[i]?) hmap
  simp only [List.getElem?_map] at h2
  rw [List.getElem?_eq_getElem hi,
    List.getElem?_eq_getElem (by rw [List.length_range]; exact hi)] at h2
  simp only [List.getElem_range, Option.map_some] at h2
  rw [List.get_eq_getElem]
  exact Option.some.inj h2

/-- Extract the decoded list of a successful parse, or `[]`. -/
def okOrNil (r : RResult (List PowerEvent)) : List PowerEvent :=
  match r with
  | .ok l => l
  | _ => []

/-- A buffer with a valid header, a valid base timestamp and two power
records, used to instantiate the parse theorems. -/
def TB2 : List Nat :=
  [0xE0, 0xC5, 0xEA,
   0x09, 0x0B, 0x0E, 0x12, 0x2B,
   0x08, 0xC6, 0x01, 0xBE, 0x57,
   0x08, 0xC0, 0x01, 0xB0, 0x50,
   0xFF, 0xFF, 0xFF, 0xFF]

/-- C2: on every buffer on which `parse` succeeds, the i-th emitted reading
has timestamp equal to the decoded base timestamp plus i minutes, and
consequently successive readings' timestamps differ by exactly one
minute in emission order. -/
theorem parse_timestamp_arithmetic (raw : List Nat) (evs : List PowerEvent)
    (h : parse raw = .ok evs) :
    ∃ t0, decode_timestamp raw 3 = some t0 ∧
      (∀ i (hi : i < evs.length), (evs.get ⟨i, hi⟩).timestamp = t0 + (i : Int)) ∧
      (∀ i (hi : i + 1 < evs.length),
        (evs.get ⟨i + 1, hi⟩).timestamp -
          (evs.get ⟨i, Nat.lt_of_succ_lt hi⟩).timestamp = 1) := by
  obtain ⟨t0, ht, hmap⟩ := parse_ok_spec raw evs h
  refine ⟨t0, ht, fun i hi => map_timestamp_get hmap i hi, ?_⟩
  intro i hi
  rw [map_timestamp_get hmap (i + 1) hi, map_timestamp_get hmap i (Nat.lt_of_succ_lt hi)]
  push_cast
  ring

/-- Witness for C2: instantiation at the two-record buffer `TB2`, on which
`parse` succeeds. -/
theorem parse_timestamp_arithmetic_inst :
    ∃ t0, decode_timestamp TB2 3 = some t0 ∧
      (∀ i (hi : i < (okOrNil (parse TB2)).length),
        ((okOrNil (parse TB2)).get ⟨i, hi⟩).timestamp = t0 + (i : Int)) ∧
      (∀ i (hi : i + 1 < (okOrNil (parse TB2)).length),
        ((okOrNil (parse TB2)).get ⟨i + 1, hi⟩).timestamp -
          ((okOrNil (parse TB2)).get ⟨i, Nat.lt_of_succ_lt hi⟩).timestamp = 1) :=
  parse_timestamp_arithmetic TB2 (okOrNil (parse TB2)) rfl

/-- C5 (evidence of the code bug): fixed-width reads on truncated buffers
panic (modelled `none`/`.panicked`) instead of treating the buffer as
invalid or returning a `Truncated`/`OutOfBounds` decode error: validation
of a 2-byte buffer panics, and a field read past the end of the buffer
panics during record decoding. -/
theorem truncated_buffer_reads_panic :
    is_valid [0xE0, 0xC5] = none ∧
    parse [0xE0, 0xC5] = .panicked ∧
    decode_power [0xE0, 0xC5, 0xEA, 9, 11, 14, 18, 43, 8] 8 = none ∧
    is_endofdata [0xE0, 0xC5, 0xEA, 9, 11, 14, 18, 43, 8] 8 = none ∧
    parse [0xE0, 0xC5, 0xEA, 9, 11, 14, 18, 43, 8] = .panicked :=
  ⟨rfl, rfl, rfl, rfl, rfl⟩

/-- C6: a buffer whose first three bytes are not exactly the magic marker
makes `parse` fail with the `InvalidFormat` error (and hence emit no
readings); a buffer whose first three bytes equal the magic marker never
produces that error. -/
theorem parse_magic_marker_gate (raw : List Nat) (h3 : 3 ≤ raw.length) :
    (raw.take 3 ≠ MAGIC_NUMBER → parse raw = .error invalidMsg) ∧
    (raw.take 3 = MAGIC_NUMBER → ∀ s, parse raw ≠ .error s) := by
  constructor
  · intro hne
    have hv : is_valid raw = some false := by
      simp [is_valid, h3, hne]
    simp [parse, hv]
  · intro heq s
    have hv : is_valid raw = some true := by
      simp [is_valid, h3, heq]
    cases ht : decode_timestamp raw 3 with
    | none => simp [parse, hv, ht]
    | some t0 =>
      simp only [parse, hv, ht]
      exact parseLoop_ne_error raw t0 _ _ _ _ s

/-- Witness for C6: a 3-byte buffer that is not a Voltcraft header is
rejected with the `InvalidFormat` error. -/
theorem parse_magic_marker_gate_inst :
    parse [0, 1, 2] = .error invalidMsg :=
  (parse_magic_marker_gate [0, 1, 2] (by decide)).1 (by decide)

/-- C9: a buffer that passes magic-marker validation but whose five
base-timestamp bytes do not encode a valid calendar date-time makes
`parse` panic inside `decode_timestamp` instead of returning an error;
validity of the base-timestamp bytes is thus a precondition for `parse`
to complete. -/
theorem parse_invalid_base_timestamp (raw : List Nat)
    (hmagic : raw.take 3 = MAGIC_NUMBER) (hlen : 8 ≤ raw.length)
    (hbad : isValidDateTime (raw.getD 5 0 + 2000) (raw.getD 3 0) (raw.getD 4 0)
      (raw.getD 6 0) (raw.getD 7 0) = false) :
    parse raw = .panicked := by
  have hv : is_valid raw = some true := by
    simp [is_valid, show 3 ≤ raw.length by omega, hmagic]
  have ht : decode_timestamp raw 3 = none := by
    simp only [decode_timestamp, show 3 + 5 ≤ raw.length from hlen, if_true]
    simp
    simpa using hbad
  simp [parse, hv, ht]

/-- Witness for C9: a buffer with a valid header whose month byte is 13
(no such calendar month) makes `parse` panic. -/
theorem parse_invalid_base_timestamp_inst :
    parse [0xE0, 0xC5, 0xEA, 13, 1, 14, 0, 0] = .panicked :=
  parse_invalid_base_timestamp [0xE0, 0xC5, 0xEA, 13, 1, 14, 0, 0]
    (by decide) (by decide) (by decide)

/-! ### Helper lemmas about the statistics engine -/

lemma foldl_add_map (f : PowerEvent → ℚ) :
    ∀ (l : List PowerEvent) (init : ℚ),
      l.foldl (fun sum x => sum + f x) init = init + (l.map f).sum
  | [], init => by simp
  | x :: xs, init => by
    rw [List.foldl_cons, foldl_add_map f xs (init + f x)]
    simp [add_assoc]

lemma compute_stats_cons_ne_none (a : PowerEvent) (tl : List PowerEvent) :
    compute_stats (a :: tl) ≠ none := by
  simp [compute_stats, max_by, min_by]

lemma chunksExact2_eq_spec : ∀ l : List PowerEvent, chunksExact2 l = blackoutPairsSpec l
  | [] => by
    show ([] : List (PowerEvent × PowerEvent)) = blackoutPairsSpec []
    simp [blackoutPairsSpec]
  | [x] => by
    show ([] : List (PowerEvent × PowerEvent)) = blackoutPairsSpec [x]
    simp [blackoutPairsSpec]
  | a :: b :: rest => by
    show (a, b) :: chunksExact2 rest = blackoutPairsSpec (a :: b :: rest)
    rw [chunksExact2_eq_spec rest]
    simp only [blackoutPairsSpec]
    have hl : (a :: b :: rest).length / 2 = rest.length / 2 + 1 := by
      simp only [List.length_cons]
      omega
    rw [hl, List.range_succ_eq_map, List.map_cons, List.map_map]
    refine congrArg₂ List.cons ?_ ?_
    · simp
    · refine List.map_congr_left ?_
      intro i hi
      have h1 : 2 * (i + 1) = 2 * i + 1 + 1 := by ring
      have h2 : 2 * (i + 1) + 1 = 2 * i + 1 + 1 + 1 := by ring
      simp [Function.comp, h1, h2, List.getD_cons_succ]

lemma blackout_filterMap_eq :
    ∀ pl : List (PowerEvent × PowerEvent),
      pl.filterMap (fun p => if 1 < p.2.timestamp - p.1.timestamp then
          some ({ timestamp := p.1.timestamp + 1,
                  duration := p.2.timestamp - p.1.timestamp } : PowerBlackout)
        else none)
      = (pl.filter (fun p => decide (1 < p.2.timestamp - p.1.timestamp))).map
          (fun p => { timestamp := p.1.timestamp + 1,
                      duration := p.2.timestamp - p.1.timestamp })
  | [] => rfl
  | x :: xs => by
    by_cases hq : 1 < x.2.timestamp - x.1.timestamp <;>
      simp [List.filterMap_cons, List.filter_cons, hq, blackout_filterMap_eq xs]

lemma blackouts_nil_of_chain :
    ∀ l : List PowerEvent,
      List.Chain' (fun a b => b.timestamp = a.timestamp + 1) l →
      compute_blackouts l = []
  | [], _ => rfl
  | [_], _ => rfl
  | a :: b :: rest, h => by
    have hab : b.timestamp = a.timestamp + 1 := (List.chain'_cons.mp h).1
    have htail : List.Chain' (fun a b => b.timestamp = a.timestamp + 1) rest :=
      ((List.chain'_cons.mp h).2).tail
    have hcond : (decide (1 < b.timestamp - a.timestamp)) = false := by
      apply decide_eq_false
      omega
    show ((chunksExact2 (a :: b :: rest)).filter
        (fun p => decide (1 < p.2.timestamp - p.1.timestamp))).map
      (fun p => ({ timestamp := p.1.timestamp + 1,
                   duration := p.2.timestamp - p.1.timestamp } : PowerBlackout)) = []
    rw [show chunksExact2 (a :: b :: rest) = (a, b) :: chunksExact2 rest from rfl,
      List.filter_cons]
    simp only [hcond, Bool.false_eq_true, if_false]
    exact blackouts_nil_of_chain rest htail

/-! ### Claim theorems (statistics engine) -/

/-- C7: `compute_stats` (and hence `overall_stats`) does not return a
`PowerStats` value on the empty reading sequence — the unchecked
maximum/minimum selection panics there — and returns a value exactly when
the sequence is non-empty, so non-emptiness is a precondition. -/
theorem compute_stats_empty_none (l : List PowerEvent) :
    (compute_stats l = none ↔ l = []) ∧ (overall_stats l = none ↔ l = []) := by
  cases l with
  | nil => exact ⟨⟨fun _ => rfl, fun _ => rfl⟩, ⟨fun _ => rfl, fun _ => rfl⟩⟩
  | cons a tl =>
    have hne := compute_stats_cons_ne_none a tl
    exact ⟨⟨fun h => absurd h hne, fun h => absurd h (List.cons_ne_nil a tl)⟩,
      ⟨fun h => absurd h hne, fun h => absurd h (List.cons_ne_nil a tl)⟩⟩

/-- Witness for C7: on the empty sequence neither `compute_stats` nor
`overall_stats` returns a value. -/
theorem compute_stats_empty_none_inst :
    compute_stats ([] : List PowerEvent) = none ∧
    overall_stats ([] : List PowerEvent) = none :=
  ⟨(compute_stats_empty_none []).1.mpr rfl, (compute_stats_empty_none []).2.mpr rfl⟩

/-- C8: for every non-empty reading sequence, `overall_stats` returns a
value whose total active (resp. apparent) power is the sum of the `power`
(resp. `apparent_power`) fields divided by 60, and whose averages are the
respective sums divided by the element count. -/
theorem overall_stats_sum_formulas (l : List PowerEvent) (h : l ≠ []) :
    ∃ s, overall_stats l = some s ∧
      s.total_active_power = (l.map (fun e => e.power)).sum / 60 ∧
      s.total_apparent_power = (l.map (fun e => e.apparent_power)).sum / 60 ∧
      s.avg_active_power = (l.map (fun e => e.power)).sum / (l.length : ℚ) ∧
      s.avg_apparent_power = (l.map (fun e => e.apparent_power)).sum / (l.length : ℚ) := by
  cases l with
  | nil => exact absurd rfl h
  | cons a tl =>
    refine ⟨_, rfl, ?_, ?_, ?_, ?_⟩
    · show (a :: tl).foldl (fun sum x => sum + x.power) 0 / 60 =
        ((a :: tl).map (fun e => e.power)).sum / 60
      rw [foldl_add_map, zero_add]
    · show (a :: tl).foldl (fun sum x => sum + x.apparent_power) 0 / 60 =
        ((a :: tl).map (fun e => e.apparent_power)).sum / 60
      rw [foldl_add_map, zero_add]
    · show (a :: tl).foldl (fun sum x => sum + x.power) 0 / ((a :: tl).length : ℚ) =
        ((a :: tl).map (fun e => e.power)).sum / ((a :: tl).length : ℚ)
      rw [foldl_add_map, zero_add]
    · show (a :: tl).foldl (fun sum x => sum + x.apparent_power) 0 / ((a :: tl).length : ℚ) =
        ((a :: tl).map (fun e => e.apparent_power)).sum / ((a :: tl).length : ℚ)
      rw [foldl_add_map, zero_add]

/-- A one-element reading list used to instantiate the statistics
theorems. -/
def E1 : PowerEvent :=
  { timestamp := 0, voltage := 1, current := 1, power_factor := 1,
    power := 1, apparent_power := 1 }

/-- Witness for C8: instantiation at the one-reading sequence `[E1]`. -/
theorem overall_stats_sum_formulas_inst :
    ∃ s, overall_stats [E1] = some s ∧
      s.total_active_power = ([E1].map (fun e => e.power)).sum / 60 ∧
      s.total_apparent_power = ([E1].map (fun e => e.apparent_power)).sum / 60 ∧
      s.avg_active_power = ([E1].map (fun e => e.power)).sum / (([E1] : List PowerEvent).length : ℚ) ∧
      s.avg_apparent_power =
        ([E1].map (fun e => e.apparent_power)).sum / (([E1] : List PowerEvent).length : ℚ) :=
  overall_stats_sum_formulas [E1] (List.cons_ne_nil E1 [])

/-- C4: for every non-empty reading sequence, `daily_stats` emits dates in
strictly ascending order (hence no duplicates), those dates are exactly
the distinct dates of the readings' timestamps, and each entry's stats
are computed from exactly the readings whose date matches, filtered out
of the input with relative order preserved (a sublist of the input). -/
theorem daily_stats_dates_and_filtering (l : List PowerEvent) (h : l ≠ []) :
    ((daily_stats l).map Prod.fst).Sorted (· < ·) ∧
    ((daily_stats l).map Prod.fst).toFinset =
      (l.map (fun e => dateOf e.timestamp)).toFinset ∧
    ∀ p ∈ daily_stats l,
      p.2 = compute_stats (l.filter (fun d => p.1 == dateOf d.timestamp)) ∧
      (l.filter (fun d => p.1 == dateOf d.timestamp)).Sublist l := by
  have hfst : (daily_stats l).map Prod.fst = distinct_days l := by
    unfold daily_stats
    rw [List.map_map]
    exact (List.map_congr_left fun d _ => rfl).trans (List.map_id _)
  have hperm : List.Perm (distinct_days l)
      ((l.map (fun e => dateOf e.timestamp)).dedup) :=
    List.perm_insertionSort _ _
  refine ⟨?_, ?_, ?_⟩
  · rw [hfst]
    have hsorted : (distinct_days l).Sorted (· ≤ ·) :=
      List.sorted_insertionSort _ _
    have hnodup : (distinct_days l).Nodup :=
      hperm.nodup_iff.mpr (List.nodup_dedup _)
    exact hsorted.lt_of_le hnodup
  · rw [hfst, List.toFinset_eq_of_perm _ _ hperm]
    exact List.toFinset.ext (fun x => by simp [List.mem_dedup])
  · intro p hp
    simp only [daily_stats, List.mem_map] at hp
    obtain ⟨d, _, rfl⟩ := hp
    exact ⟨rfl, List.filter_sublist l⟩

/-- Witness for C4: instantiation at the one-reading sequence `[E1]`. -/
theorem daily_stats_dates_and_filtering_inst :
    ((daily_stats [E1]).map Prod.fst).Sorted (· < ·) ∧
    ((daily_stats [E1]).map Prod.fst).toFinset =
      ([E1].map (fun e => dateOf e.timestamp)).toFinset ∧
    ∀ p ∈ daily_stats [E1],
      p.2 = compute_stats ([E1].filter (fun d => p.1 == dateOf d.timestamp)) ∧
      ([E1].filter (fun d => p.1 == dateOf d.timestamp)).Sublist [E1] :=
  daily_stats_dates_and_filtering [E1] (List.cons_ne_nil E1 [])

/-- C3: `blackout_stats` is exactly the specification's pairing policy: it
partitions the sequence into consecutive non-overlapping index pairs
(r0,r1), (r2,r3), ... (a final unpaired element discarded), emits one
blackout per pair whose timestamp gap exceeds one minute with
start = first timestamp + 1 minute and duration = the gap, and compares no
other pairs of readings. -/
theorem blackout_pairing_refines_spec (l : List PowerEvent) :
    blackout_stats l = blackoutsSpec l := by
  show compute_blackouts l = blackoutsSpec l
  unfold compute_blackouts blackoutsSpec
  rw [chunksExact2_eq_spec l, blackout_filterMap_eq]

/-- C10: on every buffer on which `parse` succeeds, `blackout_stats`
applied to the returned reading sequence is empty: parse-assigned
timestamps advance by exactly one minute, so no pair's gap can exceed one
minute. -/
theorem parse_output_has_no_blackouts (raw : List Nat) (evs : List PowerEvent)
    (h : parse raw = .ok evs) : blackout_stats evs = [] := by
  obtain ⟨t0, _, hmap⟩ := parse_ok_spec raw evs h
  have hchain : List.Chain' (fun a b => b.timestamp = a.timestamp + 1) evs := by
    rw [List.chain'_iff_get]
    intro i hi
    have hi1 : i + 1 < evs.length := by omega
    have hi0 : i < evs.length := by omega
    rw [map_timestamp_get hmap (i + 1) hi1, map_timestamp_get hmap i hi0]
    push_cast
    ring
  exact blackouts_nil_of_chain evs hchain

/-- Witness for C10: the two-record buffer `TB2` parses successfully and
its reading sequence has no blackouts. -/
theorem parse_output_has_no_blackouts_inst :
    blackout_stats (okOrNil (parse TB2)) = [] :=
  parse_output_has_no_blackouts TB2 (okOrNil (parse TB2)) rfl

end Voltcraft
